import Mathlib

/-!
# ThreadSafeQueue (CPP/concurrent_thread.cpp)

A shallow embedding of the class template `ThreadSafeQueue<T>`.

Every public member function takes the queue's mutex for its whole body, so
each call is embedded as one atomic transition on the pair of data members
`(q, finished)`.  The mutex and the condition variable carry no data; the only
place where they change what a call computes is the predicate wait at the top of
`pop`, which is embedded as the outcome `Outcome.waiting` (the caller stays
suspended and the members are untouched).

`std::queue<T>` is embedded as a list, head of the list = front of the queue.
`front()` and `pop()` of an empty `std::queue` are undefined behaviour; they are
embedded as `none`, and a member function that would reach them yields
`Outcome.undefined`.  Memory is taken to be unbounded (`push` cannot throw), and
`size_t` is `Nat`: the element count of a container never exceeds `SIZE_MAX`.
-/

namespace StdQueue

/-- Member `std::queue<T>::push`: append at the back. -/
def push {T : Type} (q : List T) (value : T) : List T := q ++ [value]

/-- Member `std::queue<T>::empty`. -/
def empty {T : Type} (q : List T) : Bool := q.isEmpty

/-- Member `std::queue<T>::size`. -/
def size {T : Type} (q : List T) : Nat := q.length

/-- Member `std::queue<T>::front`; `none` on an empty queue (undefined behaviour). -/
def front {T : Type} : List T → Option T
  | [] => none
  | a :: _ => some a

/-- Member `std::queue<T>::pop`: drop the front element; `none` on an empty queue
(undefined behaviour). -/
def pop {T : Type} : List T → Option (List T)
  | [] => none
  | _ :: rest => some rest

end StdQueue

/-- What a call of a member function comes to. -/
inductive Outcome (α : Type) where
  /-- The call returned. -/
  | done (a : α)
  /-- The predicate of `cv.wait` is false: the caller is suspended. -/
  | waiting
  /-- The call reached `front()` or `pop()` of an empty `std::queue`. -/
  | undefined
  deriving DecidableEq, Repr

/-- Data members of `ThreadSafeQueue<T>` (lines 12-15); `mtx` and `cv` hold no data. -/
structure ThreadSafeQueue (T : Type) where
  q : List T
  finished : Bool
  deriving DecidableEq, Repr

/-- What `pop` and `tryPop` hand back: the `bool` result, the content of the
caller's reference parameter `value` after the call, and the queue after the call. -/
structure PopResult (T : Type) where
  ret : Bool
  value : T
  self : ThreadSafeQueue T
  deriving DecidableEq, Repr

namespace ThreadSafeQueue

variable {T : Type}

/-- Constructor, line 18: `q` default-constructed (empty), `finished(false)`. -/
def init : ThreadSafeQueue T := { q := [], finished := false }

/-- Lines 21-25: `q.push(move(value))`. -/
def push (self : ThreadSafeQueue T) (value : T) : ThreadSafeQueue T :=
  { self with q := StdQueue.push self.q value }

/-- Line 30, the predicate handed to `cv.wait`: `!q.empty() || finished`. -/
def waitPredicate (self : ThreadSafeQueue T) : Bool :=
  !StdQueue.empty self.q || self.finished

/-- Lines 28-37, blocking `pop(T& value)`. -/
def pop (self : ThreadSafeQueue T) (value : T) : Outcome (PopResult T) :=
  if !self.waitPredicate then .waiting
  else if StdQueue.empty self.q then .done { ret := false, value := value, self := self }
  else
    match StdQueue.front self.q, StdQueue.pop self.q with
    | some v, some rest => .done { ret := true, value := v, self := { self with q := rest } }
    | _, _ => .undefined

/-- Lines 40-47, non-blocking `tryPop(T& value)`. -/
def tryPop (self : ThreadSafeQueue T) (value : T) : Outcome (PopResult T) :=
  if StdQueue.empty self.q then .done { ret := false, value := value, self := self }
  else
    match StdQueue.front self.q, StdQueue.pop self.q with
    | some v, some rest => .done { ret := true, value := v, self := { self with q := rest } }
    | _, _ => .undefined

/-- Lines 50-53, `empty() const`. -/
def empty (self : ThreadSafeQueue T) : Bool := StdQueue.empty self.q

/-- Lines 56-59, `size() const`. -/
def size (self : ThreadSafeQueue T) : Nat := StdQueue.size self.q

/-- Lines 62-66, `finish()`: `finished = true`. -/
def finish (self : ThreadSafeQueue T) : ThreadSafeQueue T :=
  { self with finished := true }

end ThreadSafeQueue

/-- One call of a public member function; `pop` and `tryPop` carry the content of
the caller's variable bound to `value` at the time of the call. -/
inductive Op (T : Type) where
  | push (value : T)
  | pop (value : T)
  | tryPop (value : T)
  | empty
  | size
  | finish
  deriving DecidableEq, Repr

/-- What the caller observes of one call. -/
inductive Ret (T : Type) where
  /-- Return of `push` and `finish`. -/
  | void
  /-- Return of `pop` and `tryPop`: the `bool`, and `value` after the call. -/
  | popped (found : Bool) (value : T)
  /-- Return of `empty`. -/
  | isEmpty (b : Bool)
  /-- Return of `size`. -/
  | count (n : Nat)
  /-- A `pop` whose caller is suspended in `cv.wait`: nothing is returned. -/
  | suspended
  deriving DecidableEq, Repr

namespace ThreadSafeQueue

variable {T : Type}

/-- One atomic call on the queue: what the caller gets and the queue afterwards. -/
def step (self : ThreadSafeQueue T) : Op T → Outcome (Ret T × ThreadSafeQueue T)
  | .push value => .done (.void, self.push value)
  | .pop value =>
    match self.pop value with
    | .done r => .done (.popped r.ret r.value, r.self)
    | .waiting => .waiting
    | .undefined => .undefined
  | .tryPop value =>
    match self.tryPop value with
    | .done r => .done (.popped r.ret r.value, r.self)
    | .waiting => .waiting
    | .undefined => .undefined
  | .empty => .done (.isEmpty self.empty, self)
  | .size => .done (.count self.size, self)
  | .finish => .done (.void, self.finish)

/-- A trace of calls taken one after the other in the order in which they hold
the mutex.  A `pop` that finds its wait predicate false suspends its caller and
leaves the members as they are, so the trace goes on from the same state and
records `Ret.suspended` for it. -/
def run (self : ThreadSafeQueue T) : List (Op T) → Outcome (List (Ret T) × ThreadSafeQueue T)
  | [] => .done ([], self)
  | op :: ops =>
    match self.step op with
    | .done (r, next) =>
      match next.run ops with
      | .done (rs, last) => .done (r :: rs, last)
      | .waiting => .waiting
      | .undefined => .undefined
    | .waiting =>
      match self.run ops with
      | .done (rs, last) => .done (.suspended :: rs, last)
      | .waiting => .waiting
      | .undefined => .undefined
    | .undefined => .undefined

/-- Pushes of `values` in list order, nothing in between. -/
def pushAll (self : ThreadSafeQueue T) (values : List T) : ThreadSafeQueue T :=
  values.foldl push self

/-- Successive `pop` calls by one caller, `n` of them, each on a fresh variable
holding `d` (as in `consumer`, lines 81-83); the list holds each call's `bool` and
its `value` afterwards.  A call that suspends suspends the caller for good. -/
def popN (d : T) : Nat → ThreadSafeQueue T → Outcome (List (Bool × T) × ThreadSafeQueue T)
  | 0, self => .done ([], self)
  | n + 1, self =>
    match self.pop d with
    | .done r =>
      match popN d n r.self with
      | .done (rs, last) => .done ((r.ret, r.value) :: rs, last)
      | .waiting => .waiting
      | .undefined => .undefined
    | .waiting => .waiting
    | .undefined => .undefined

end ThreadSafeQueue

/-- Values handed to `push` in a trace, in call order. -/
def pushedValues {T : Type} : List (Op T) → List T
  | [] => []
  | .push v :: ops => v :: pushedValues ops
  | _ :: ops => pushedValues ops

/-- Values delivered by the `pop`/`tryPop` calls of a trace that returned `true`,
in return order. -/
def returnedValues {T : Type} : List (Ret T) → List T
  | [] => []
  | .popped true v :: rs => v :: returnedValues rs
  | _ :: rs => returnedValues rs

/-- No call of the trace is a `push`. -/
def noPush {T : Type} : List (Op T) → Bool
  | [] => true
  | .push _ :: _ => false
  | _ :: ops => noPush ops

/-- A caller of `pop` as the wait loop of line 30 leaves it: blocked in `cv.wait`
with its variable `value` as it was, or returned with the `bool` and `value`. -/
inductive PopCall (T : Type) where
  | blocked (value : T)
  | returned (ret : Bool) (value : T)
  deriving DecidableEq, Repr

namespace ThreadSafeQueue

variable {T : Type}

/-- One wakeup, notified or spurious, of a caller blocked in
`cv.wait(lock, pred)` (line 30).  The wait with a predicate is the loop
`while (!pred()) wait(lock);`, so the woken caller, holding the mutex again, is
where a fresh call of `pop` is after taking the mutex: on a false predicate it
blocks again and the members are untouched, on a true one lines 32-36 run. -/
def wakeup (self : ThreadSafeQueue T) (value : T) : Outcome (PopCall T × ThreadSafeQueue T) :=
  match self.pop value with
  | .done r => .done (.returned r.ret r.value, r.self)
  | .waiting => .done (.blocked value, self)
  | .undefined => .undefined

end ThreadSafeQueue

/-! ## Threads and the mutex

The calls above are taken as atomic.  To state where `mtx` is held, the member
functions are also embedded statement by statement: a thread stands at a program
point, and each of its steps is one statement of lines 21-66.  Threads are
interleaved at that grain.  `std::mutex` is embedded as the thread that holds it,
if any; `lock_guard`/`unique_lock` acquire in their constructor (enabled only when
no thread holds the mutex) and release at the end of the scope;
`cv.wait(lock)` releases the mutex and blocks, and the woken thread acquires it
again.  Wakeups may come at any time, so `notify_one`/`notify_all` change nothing
in this embedding.
-/

/-- Program points of a thread in the public member functions, named by the
statement the thread runs next. -/
inductive Pc (T : Type) where
  /-- Outside any call. -/
  | idle
  /-- Line 22, `lock_guard<mutex> lock(mtx)`. -/
  | pushLock (value : T)
  /-- Line 23, `q.push(move(value))`. -/
  | pushQ (value : T)
  /-- Line 24, `cv.notify_one()`. -/
  | pushNotify
  /-- Line 25, end of scope: `lock` is destroyed. -/
  | pushUnlock
  /-- Line 29, `unique_lock<mutex> lock(mtx)`. -/
  | popLock (value : T)
  /-- Line 30, the predicate of `cv.wait` is evaluated. -/
  | popPred (value : T)
  /-- Line 30, predicate false: `wait(lock)` releases the mutex and blocks. -/
  | popWait (value : T)
  /-- Line 30, blocked in `wait(lock)`; on wakeup the mutex is acquired again. -/
  | popBlocked (value : T)
  /-- Line 32, `if (q.empty())`. -/
  | popEmpty (value : T)
  /-- Line 34, `value = move(q.front())`. -/
  | popFront (value : T)
  /-- Line 35, `q.pop()`. -/
  | popPop (value : T)
  /-- Lines 32/36, `return`: `lock` is destroyed. -/
  | popUnlock (ret : Bool) (value : T)
  /-- Line 41, `lock_guard<mutex> lock(mtx)`. -/
  | tryPopLock (value : T)
  /-- Line 42, `if (q.empty())`. -/
  | tryPopEmpty (value : T)
  /-- Line 44, `value = move(q.front())`. -/
  | tryPopFront (value : T)
  /-- Line 45, `q.pop()`. -/
  | tryPopPop (value : T)
  /-- Lines 42/46, `return`: `lock` is destroyed. -/
  | tryPopUnlock (ret : Bool) (value : T)
  /-- Line 51, `lock_guard<mutex> lock(mtx)`. -/
  | emptyLock
  /-- Line 52, `q.empty()` is evaluated. -/
  | emptyRead
  /-- Line 52, `return`: `lock` is destroyed. -/
  | emptyUnlock (ret : Bool)
  /-- Line 57, `lock_guard<mutex> lock(mtx)`. -/
  | sizeLock
  /-- Line 58, `q.size()` is evaluated. -/
  | sizeRead
  /-- Line 58, `return`: `lock` is destroyed. -/
  | sizeUnlock (ret : Nat)
  /-- Line 63, `lock_guard<mutex> lock(mtx)`. -/
  | finishLock
  /-- Line 64, `finished = true`. -/
  | finishSet
  /-- Line 65, `cv.notify_all()`. -/
  | finishNotify
  /-- Line 66, end of scope: `lock` is destroyed. -/
  | finishUnlock
  /-- After `front()` or `pop()` of an empty `std::queue`; the thread never left
  the scope of its lock. -/
  | fault
  deriving DecidableEq, Repr

/-- What one step of a thread does. -/
inductive Move (T : Type) where
  /-- A statement that touches neither the mutex nor the members. -/
  | goto (pc : Pc T)
  /-- Acquire `mtx`; the thread stays where it is while another thread holds it. -/
  | acquire (pc : Pc T)
  /-- Release `mtx`. -/
  | release (pc : Pc T)
  /-- A statement that reads or writes `q` or `finished`, leaving the members as
  `self`. -/
  | access (pc : Pc T) (self : ThreadSafeQueue T)
  /-- No step. -/
  | stuck
  deriving DecidableEq, Repr

namespace Pc

variable {T : Type}

/-- First program point of a call. -/
def entry : Op T → Pc T
  | .push value => .pushLock value
  | .pop value => .popLock value
  | .tryPop value => .tryPopLock value
  | .empty => .emptyLock
  | .size => .sizeLock
  | .finish => .finishLock

/-- The step of a thread at a program point, the members being `self`; an idle
thread enters `call`. -/
def move (call : Op T) (self : ThreadSafeQueue T) : Pc T → Move T
  | .idle => .goto (entry call)
  | .pushLock value => .acquire (.pushQ value)
  | .pushQ value => .access .pushNotify (self.push value)
  | .pushNotify => .goto .pushUnlock
  | .pushUnlock => .release .idle
  | .popLock value => .acquire (.popPred value)
  | .popPred value =>
    .access (if self.waitPredicate then .popEmpty value else .popWait value) self
  | .popWait value => .release (.popBlocked value)
  | .popBlocked value => .acquire (.popPred value)
  | .popEmpty value =>
    .access (if StdQueue.empty self.q then .popUnlock false value else .popFront value) self
  | .popFront _ =>
    match StdQueue.front self.q with
    | some v => .access (.popPop v) self
    | none => .access .fault self
  | .popPop value =>
    match StdQueue.pop self.q with
    | some rest => .access (.popUnlock true value) { self with q := rest }
    | none => .access .fault self
  | .popUnlock _ _ => .release .idle
  | .tryPopLock value => .acquire (.tryPopEmpty value)
  | .tryPopEmpty value =>
    .access (if StdQueue.empty self.q then .tryPopUnlock false value else .tryPopFront value)
      self
  | .tryPopFront _ =>
    match StdQueue.front self.q with
    | some v => .access (.tryPopPop v) self
    | none => .access .fault self
  | .tryPopPop value =>
    match StdQueue.pop self.q with
    | some rest => .access (.tryPopUnlock true value) { self with q := rest }
    | none => .access .fault self
  | .tryPopUnlock _ _ => .release .idle
  | .emptyLock => .acquire .emptyRead
  | .emptyRead => .access (.emptyUnlock self.empty) self
  | .emptyUnlock _ => .release .idle
  | .sizeLock => .acquire .sizeRead
  | .sizeRead => .access (.sizeUnlock self.size) self
  | .sizeUnlock _ => .release .idle
  | .finishLock => .acquire .finishSet
  | .finishSet => .access .finishNotify self.finish
  | .finishNotify => .goto .finishUnlock
  | .finishUnlock => .release .idle
  | .fault => .stuck

/-- The statement at this program point reads or writes `q` or `finished`. -/
def accesses : Pc T → Bool
  | .pushQ _ | .popPred _ | .popEmpty _ | .popFront _ | .popPop _
  | .tryPopEmpty _ | .tryPopFront _ | .tryPopPop _
  | .emptyRead | .sizeRead | .finishSet => true
  | _ => false

/-- The program point lies in the scope of a lock that holds `mtx`: after the
constructor of `lock_guard`/`unique_lock` and before its destructor, outside
`wait(lock)`. -/
def inLockScope : Pc T → Bool
  | .idle | .pushLock _ | .popLock _ | .popBlocked _ | .tryPopLock _
  | .emptyLock | .sizeLock | .finishLock => false
  | _ => true

end Pc

/-- The queue shared by threads: the members, the thread that holds `mtx` if any,
and the program point of each thread (thread `i` is entry `i` of the list). -/
structure Config (T : Type) where
  self : ThreadSafeQueue T
  owner : Option Nat
  pcs : List (Pc T)
  deriving DecidableEq, Repr

namespace Config

variable {T : Type}

/-- A queue in state `self` shared by `n` threads, none of them inside a call. -/
def start (self : ThreadSafeQueue T) (n : Nat) : Config T :=
  { self := self, owner := none, pcs := List.replicate n .idle }

/-- Thread `i` makes the move `m`. -/
def apply (c : Config T) (i : Nat) : Move T → Config T
  | .goto pc => { c with pcs := c.pcs.set i pc }
  | .acquire pc =>
    if c.owner = none then { c with owner := some i, pcs := c.pcs.set i pc } else c
  | .release pc => { c with owner := none, pcs := c.pcs.set i pc }
  | .access pc self => { self := self, owner := c.owner, pcs := c.pcs.set i pc }
  | .stuck => c

/-- Thread `i` is scheduled for one step; when idle it enters `call`. -/
def stepThread (c : Config T) (i : Nat) (call : Op T) : Config T :=
  match c.pcs[i]? with
  | none => c
  | some pc => c.apply i (pc.move call c.self)

/-- A schedule: the threads step one at a time in the order of the list. -/
def exec (c : Config T) : List (Nat × Op T) → Config T
  | [] => c
  | (i, call) :: rest => (c.stepThread i call).exec rest

/-- A thread in the scope of its lock is the thread that holds `mtx`. -/
def LockDiscipline (c : Config T) : Prop :=
  ∀ i pc, c.pcs[i]? = some pc → pc.inLockScope = true → c.owner = some i

end Config

namespace ThreadSafeQueue

variable {T : Type}

/-! ## Evaluation of the embedding on the scenarios of the demo -/

theorem popN_pushAll_example : popN 0 3 (pushAll (init : ThreadSafeQueue Int) [1, 2, 3])
    = .done ([(true, 1), (true, 2), (true, 3)], init) := by decide

theorem popN_init_example : popN 0 1 (init : ThreadSafeQueue Int) = .waiting := by decide

theorem run_example :
    run (init : ThreadSafeQueue Int) [.pop 0, .push 5, .finish, .pop 0, .pop 9, .tryPop 3]
      = .done ([.suspended, .void, .void, .popped true 5, .popped false 9, .popped false 3],
          { q := [], finished := true }) := by decide

/-- One thread alone runs `pop` statement by statement on the open queue 1, 2:
seven steps (entry, lock, predicate, test, front, pop, unlock) leave 2 queued and
the mutex free, as the atomic `pop` does. -/
theorem exec_pop_example :
    (Config.start { q := ([1, 2] : List Int), finished := false } 1).exec
        (List.replicate 7 (0, .pop 0))
      = { self := { q := [2], finished := false }, owner := none, pcs := [.idle] } := by
  decide

/-- A thread blocked in `cv.wait` on the empty open queue that wakes with no
`push` or `finish()` before takes the mutex, finds the predicate false, releases
the mutex and blocks again. -/
theorem exec_spurious_wakeup_example :
    (Config.exec { self := (init : ThreadSafeQueue Int), owner := none, pcs := [.popBlocked 0] }
        (List.replicate 3 (0, .pop 0)))
      = { self := init, owner := none, pcs := [.popBlocked 0] } := by
  decide

/-! ## Shared lemmas -/

theorem pop_cons (a : T) (rest : List T) (f : Bool) (value : T) :
    pop { q := a :: rest, finished := f } value
      = .done { ret := true, value := a, self := { q := rest, finished := f } } := by
  simp [pop, waitPredicate, StdQueue.empty, StdQueue.front, StdQueue.pop]

theorem pop_nil_closed (value : T) :
    pop { q := ([] : List T), finished := true } value
      = .done { ret := false, value := value, self := { q := [], finished := true } } := by
  simp [pop, waitPredicate, StdQueue.empty]

theorem pop_nil_open (value : T) :
    pop { q := ([] : List T), finished := false } value = .waiting := by
  simp [pop, waitPredicate, StdQueue.empty]

theorem tryPop_cons (a : T) (rest : List T) (f : Bool) (value : T) :
    tryPop { q := a :: rest, finished := f } value
      = .done { ret := true, value := a, self := { q := rest, finished := f } } := by
  simp [tryPop, StdQueue.empty, StdQueue.front, StdQueue.pop]

theorem tryPop_nil (f : Bool) (value : T) :
    tryPop { q := ([] : List T), finished := f } value
      = .done { ret := false, value := value, self := { q := [], finished := f } } := by
  simp [tryPop, StdQueue.empty]

theorem pushAll_eq (values : List T) (self : ThreadSafeQueue T) :
    pushAll self values = { q := self.q ++ values, finished := self.finished } := by
  induction values generalizing self with
  | nil => simp [pushAll]
  | cons v vs ih =>
    have h := ih (self.push v)
    simp only [pushAll, List.foldl_cons] at h ⊢
    rw [h]
    simp [push, StdQueue.push]

/-- As many pops as there are elements deliver the elements in order and leave
the sequence empty, the flag as it was. -/
theorem popN_length (d : T) (f : Bool) (q : List T) :
    popN d q.length { q := q, finished := f }
      = .done (q.map (fun v => (true, v)), { q := [], finished := f }) := by
  induction q with
  | nil => simp [popN]
  | cons a rest ih => simp [popN, pop_cons, ih]

/-- On a closed queue one pop more than there are elements delivers the elements
in order and then reports "not found". -/
theorem popN_length_succ_closed (d : T) (q : List T) :
    popN d (q.length + 1) { q := q, finished := true }
      = .done (q.map (fun v => (true, v)) ++ [(false, d)], { q := [], finished := true }) := by
  induction q with
  | nil => simp [popN, pop_nil_closed]
  | cons a rest ih =>
    rw [List.length_cons, popN, pop_cons]
    simp [ih]

/-- Every trace runs to its end from every state, and the elements present at the
start followed by the values pushed are the values returned followed by the
elements present at the end. -/
theorem run_conservation (ops : List (Op T)) (self : ThreadSafeQueue T) :
    ∃ rets last, run self ops = .done (rets, last)
      ∧ self.q ++ pushedValues ops = returnedValues rets ++ last.q := by
  induction ops generalizing self with
  | nil => exact ⟨[], self, rfl, by simp [pushedValues, returnedValues]⟩
  | cons op ops ih =>
    obtain ⟨q, f⟩ := self
    cases op with
    | push v =>
      obtain ⟨rets, last, hrun, hq⟩ := ih (push ⟨q, f⟩ v)
      refine ⟨.void :: rets, last, by simp [run, step, hrun], ?_⟩
      simpa [push, StdQueue.push, pushedValues, returnedValues] using hq
    | pop value =>
      cases q with
      | nil =>
        obtain ⟨rets, last, hrun, hq⟩ := ih ⟨[], f⟩
        cases f with
        | false =>
          refine ⟨.suspended :: rets, last, by simp [run, step, pop_nil_open, hrun], ?_⟩
          simpa [pushedValues, returnedValues] using hq
        | true =>
          refine ⟨.popped false value :: rets, last,
            by simp [run, step, pop_nil_closed, hrun], ?_⟩
          simpa [pushedValues, returnedValues] using hq
      | cons a rest =>
        obtain ⟨rets, last, hrun, hq⟩ := ih ⟨rest, f⟩
        refine ⟨.popped true a :: rets, last, by simp [run, step, pop_cons, hrun], ?_⟩
        simpa [pushedValues, returnedValues] using hq
    | tryPop value =>
      cases q with
      | nil =>
        obtain ⟨rets, last, hrun, hq⟩ := ih ⟨[], f⟩
        refine ⟨.popped false value :: rets, last, by simp [run, step, tryPop_nil, hrun], ?_⟩
        simpa [pushedValues, returnedValues] using hq
      | cons a rest =>
        obtain ⟨rets, last, hrun, hq⟩ := ih ⟨rest, f⟩
        refine ⟨.popped true a :: rets, last, by simp [run, step, tryPop_cons, hrun], ?_⟩
        simpa [pushedValues, returnedValues] using hq
    | empty =>
      obtain ⟨rets, last, hrun, hq⟩ := ih ⟨q, f⟩
      refine ⟨.isEmpty (empty ⟨q, f⟩) :: rets, last, by simp [run, step, hrun], ?_⟩
      simpa [pushedValues, returnedValues] using hq
    | size =>
      obtain ⟨rets, last, hrun, hq⟩ := ih ⟨q, f⟩
      refine ⟨.count (size ⟨q, f⟩) :: rets, last, by simp [run, step, hrun], ?_⟩
      simpa [pushedValues, returnedValues] using hq
    | finish =>
      obtain ⟨rets, last, hrun, hq⟩ := ih (finish ⟨q, f⟩)
      refine ⟨.void :: rets, last, by simp [run, step, hrun], ?_⟩
      simpa [finish, pushedValues, returnedValues] using hq

/-- On a closed queue every call returns and leaves the queue closed. -/
theorem step_closed (self : ThreadSafeQueue T) (op : Op T) (h : self.finished = true) :
    ∃ ret next, step self op = .done (ret, next) ∧ next.finished = true := by
  obtain ⟨q, f⟩ := self
  simp only at h
  subst h
  cases op with
  | push v => exact ⟨_, _, rfl, rfl⟩
  | pop value =>
    cases q with
    | nil => exact ⟨.popped false value, ⟨[], true⟩, by simp [step, pop_nil_closed], rfl⟩
    | cons a rest => exact ⟨.popped true a, ⟨rest, true⟩, by simp [step, pop_cons], rfl⟩
  | tryPop value =>
    cases q with
    | nil => exact ⟨.popped false value, ⟨[], true⟩, by simp [step, tryPop_nil], rfl⟩
    | cons a rest => exact ⟨.popped true a, ⟨rest, true⟩, by simp [step, tryPop_cons], rfl⟩
  | empty => exact ⟨_, _, rfl, rfl⟩
  | size => exact ⟨_, _, rfl, rfl⟩
  | finish => exact ⟨_, _, rfl, rfl⟩

/-- From a closed queue every trace runs to its end and ends closed. -/
theorem run_closed (ops : List (Op T)) (self : ThreadSafeQueue T) (h : self.finished = true) :
    ∃ rets last, run self ops = .done (rets, last) ∧ last.finished = true := by
  induction ops generalizing self with
  | nil => exact ⟨[], self, rfl, h⟩
  | cons op ops ih =>
    obtain ⟨ret, next, hstep, hnext⟩ := step_closed self op h
    obtain ⟨rets, last, hrun, hlast⟩ := ih next hnext
    exact ⟨ret :: rets, last, by simp [run, hstep, hrun], hlast⟩

/-- From a closed, empty queue a trace without `push` ends in the same state. -/
theorem run_closed_empty_noPush (ops : List (Op T)) (h : noPush ops = true) :
    ∃ rets, run { q := ([] : List T), finished := true } ops
      = .done (rets, { q := [], finished := true }) := by
  induction ops with
  | nil => exact ⟨[], rfl⟩
  | cons op ops ih =>
    cases op with
    | push v => simp [noPush] at h
    | pop value =>
      obtain ⟨rets, hrun⟩ := ih (by simpa [noPush] using h)
      exact ⟨.popped false value :: rets, by simp [run, step, pop_nil_closed, hrun]⟩
    | tryPop value =>
      obtain ⟨rets, hrun⟩ := ih (by simpa [noPush] using h)
      exact ⟨.popped false value :: rets, by simp [run, step, tryPop_nil, hrun]⟩
    | empty =>
      obtain ⟨rets, hrun⟩ := ih (by simpa [noPush] using h)
      exact ⟨.isEmpty true :: rets, by simp [run, step, empty, StdQueue.empty, hrun]⟩
    | size =>
      obtain ⟨rets, hrun⟩ := ih (by simpa [noPush] using h)
      exact ⟨.count 0 :: rets, by simp [run, step, size, StdQueue.size, hrun]⟩
    | finish =>
      obtain ⟨rets, hrun⟩ := ih (by simpa [noPush] using h)
      exact ⟨.void :: rets, by simp [run, step, finish, hrun]⟩

/-- On a closed queue `pop` returns, with `false` exactly on an empty sequence. -/
theorem pop_closed (self : ThreadSafeQueue T) (value : T) (h : self.finished = true) :
    ∃ r, self.pop value = .done r ∧ (r.ret = false ↔ self.q = []) := by
  obtain ⟨q, f⟩ := self
  simp only at h
  subst h
  cases q with
  | nil => exact ⟨_, pop_nil_closed value, by simp⟩
  | cons a rest => exact ⟨_, pop_cons a rest true value, by simp⟩

end ThreadSafeQueue

/-! ## Lemmas on threads and the mutex -/

namespace Pc

variable {T : Type}

theorem inLockScope_of_accesses (pc : Pc T) (h : pc.accesses = true) :
    pc.inLockScope = true := by
  cases pc <;> simp_all [accesses, inLockScope]

theorem move_goto (call : Op T) (self : ThreadSafeQueue T) (pc next : Pc T)
    (h : pc.move call self = .goto next) : next.inLockScope = pc.inLockScope := by
  cases pc <;> simp [move] at h <;> try (subst h; first | rfl | (cases call <;> rfl))
  all_goals (split at h <;> simp at h)

theorem move_acquire (call : Op T) (self : ThreadSafeQueue T) (pc next : Pc T)
    (h : pc.move call self = .acquire next) : pc.inLockScope = false := by
  cases pc <;> simp [move] at h <;> try rfl
  all_goals (split at h <;> simp at h)

theorem move_release (call : Op T) (self : ThreadSafeQueue T) (pc next : Pc T)
    (h : pc.move call self = .release next) :
    pc.inLockScope = true ∧ next.inLockScope = false := by
  cases pc <;> simp [move] at h <;> try (subst h; exact ⟨rfl, rfl⟩)
  all_goals (split at h <;> simp at h)

theorem move_access (call : Op T) (self : ThreadSafeQueue T) (pc next : Pc T)
    (after : ThreadSafeQueue T) (h : pc.move call self = .access next after) :
    pc.accesses = true ∧ next.inLockScope = true := by
  cases pc <;> simp [move] at h <;> try (obtain ⟨h1, -⟩ := h; subst h1; exact ⟨rfl, rfl⟩)
  all_goals first
    | (obtain ⟨h1, -⟩ := h; subst h1; refine ⟨rfl, ?_⟩; split <;> rfl)
    | (split at h <;> simp at h <;> obtain ⟨h1, -⟩ := h <;> subst h1 <;> exact ⟨rfl, rfl⟩)

/-- A statement that is no access comes to the same move whatever the members
hold, and that move is no access. -/
theorem move_frame (call : Op T) (s t : ThreadSafeQueue T) (pc : Pc T)
    (h : pc.accesses = false) :
    pc.move call s = pc.move call t ∧ ∀ next after, pc.move call s ≠ .access next after := by
  cases pc <;> simp_all [accesses, move]

end Pc

namespace Config

variable {T : Type}

theorem lockDiscipline_start (self : ThreadSafeQueue T) (n : Nat) :
    (start self n).LockDiscipline := by
  intro i pc hpc hin
  simp only [start, List.getElem?_replicate] at hpc
  split at hpc
  · cases hpc
    simp [Pc.inLockScope] at hin
  · cases hpc

theorem getElem?_set_some (pcs : List (Pc T)) (i j : Nat) (next pc : Pc T)
    (h : (pcs.set i next)[j]? = some pc) :
    (i = j ∧ pc = next) ∨ (i ≠ j ∧ pcs[j]? = some pc) := by
  rw [List.getElem?_set] at h
  by_cases hij : i = j
  · left
    rw [if_pos hij] at h
    split at h
    · exact ⟨hij, (Option.some.inj h).symm⟩
    · cases h
  · right
    rw [if_neg hij] at h
    exact ⟨hij, h⟩

theorem lockDiscipline_stepThread (c : Config T) (i : Nat) (call : Op T)
    (hc : c.LockDiscipline) : (c.stepThread i call).LockDiscipline := by
  unfold stepThread
  cases hi : c.pcs[i]? with
  | none => exact hc
  | some pc =>
    simp only
    cases hm : pc.move call c.self with
    | goto next =>
      intro j pcj hj hin
      simp only [apply] at hj ⊢
      rcases getElem?_set_some _ _ _ _ _ hj with ⟨hij, hpc⟩ | ⟨-, hold⟩
      · subst hij hpc
        rw [Pc.move_goto call c.self pc pcj hm] at hin
        exact hc i pc hi hin
      · exact hc j pcj hold hin
    | acquire next =>
      simp only [apply]
      split
      · rename_i hfree
        intro j pcj hj hin
        simp only at hj ⊢
        rcases getElem?_set_some _ _ _ _ _ hj with ⟨hij, -⟩ | ⟨-, hold⟩
        · rw [hij]
        · have := hc j pcj hold hin
          rw [hfree] at this
          cases this
      · exact hc
    | release next =>
      intro j pcj hj hin
      simp only [apply] at hj ⊢
      obtain ⟨hpcin, hnext⟩ := Pc.move_release call c.self pc next hm
      rcases getElem?_set_some _ _ _ _ _ hj with ⟨-, hpc⟩ | ⟨hij, hold⟩
      · subst hpc
        rw [hnext] at hin
        cases hin
      · have h1 := hc i pc hi hpcin
        have h2 := hc j pcj hold hin
        rw [h1] at h2
        exact absurd (Option.some.inj h2) hij
    | access next after =>
      intro j pcj hj hin
      simp only [apply] at hj ⊢
      rcases getElem?_set_some _ _ _ _ _ hj with ⟨hij, -⟩ | ⟨-, hold⟩
      · subst hij
        exact hc i pc hi
          (Pc.inLockScope_of_accesses pc (Pc.move_access call c.self pc next after hm).1)
      · exact hc j pcj hold hin
    | stuck => exact hc

theorem lockDiscipline_exec (events : List (Nat × Op T)) (c : Config T)
    (hc : c.LockDiscipline) : (c.exec events).LockDiscipline := by
  induction events generalizing c with
  | nil => exact hc
  | cons e rest ih =>
    obtain ⟨i, call⟩ := e
    exact ih _ (lockDiscipline_stepThread c i call hc)

end Config

namespace ThreadSafeQueue

variable {T : Type}

/-! ## The claims -/

/-- C1 (FIFO): the values `v1..vn` pushed in that order onto a newly constructed
queue, nothing in between, come back from `n` successive `pop` calls in the same
order, each call returning `true`; the queue is then empty and still open. -/
theorem C1_fifo_push_then_pop (values : List T) (d : T) :
    popN d values.length (pushAll init values)
      = .done (values.map (fun v => (true, v)), init) := by
  rw [pushAll_eq]
  simpa [init] using popN_length d false values

/-- C2 (no loss, no duplication): every trace of calls from a newly constructed
queue runs to its end, and the list of values pushed equals the list of values
returned by the successful `pop`/`tryPop` calls, in return order, followed by the
content of the sequence. -/
theorem C2_no_loss_no_duplication (ops : List (Op T)) :
    ∃ rets last, run init ops = .done (rets, last)
      ∧ pushedValues ops = returnedValues rets ++ last.q := by
  obtain ⟨rets, last, hrun, hq⟩ := run_conservation ops (init : ThreadSafeQueue T)
  exact ⟨rets, last, hrun, by simpa [init] using hq⟩

/-- C3: whenever blocking `pop` returns, it returns `false` exactly when the queue
is closed and its sequence empty; on a non-empty sequence it does return, with
`true`, the head element in `value`, and the rest of the sequence in order. -/
theorem C3_pop_not_found_iff (self : ThreadSafeQueue T) (value : T) :
    (∀ r, self.pop value = .done r →
        (r.ret = false ↔ (self.finished = true ∧ self.q = [])))
      ∧ (∀ a rest, self.q = a :: rest →
          self.pop value = .done { ret := true, value := a,
                                   self := { q := rest, finished := self.finished } }) := by
  obtain ⟨q, f⟩ := self
  constructor
  · intro r hr
    cases q with
    | nil =>
      cases f with
      | false => simp [pop_nil_open] at hr
      | true =>
        rw [pop_nil_closed] at hr
        cases hr
        simp
    | cons a rest =>
      rw [pop_cons] at hr
      cases hr
      simp
  · intro a rest hq
    simp only at hq
    subst hq
    exact pop_cons a rest f value

/-- C3 at concrete states: a closed empty queue of `int`, and the open queue 1, 2, 3. -/
theorem C3_pop_not_found_iff_witness :
    (pop { q := ([] : List Int), finished := true } 7
        = .done { ret := false, value := 7, self := { q := [], finished := true } }
      ∧ ((false = false) ↔ (true = true ∧ ([] : List Int) = [])))
    ∧ pop { q := ([1, 2, 3] : List Int), finished := false } 7
        = .done { ret := true, value := 1, self := { q := [2, 3], finished := false } } :=
  ⟨⟨by decide,
    (C3_pop_not_found_iff { q := ([] : List Int), finished := true } 7).1
      { ret := false, value := 7, self := { q := [], finished := true } } (by decide)⟩,
   (C3_pop_not_found_iff { q := ([1, 2, 3] : List Int), finished := false } 7).2 1 [2, 3] rfl⟩

/-- C4 (close keeps the queued elements): `finish()` leaves the sequence as it is
and sets the flag; after it, as many pops as there are elements return them in
order with `true`, and one more pop returns `false`. -/
theorem C4_finish_keeps_elements (self : ThreadSafeQueue T) (d : T) :
    self.finish.q = self.q ∧ self.finish.finished = true
      ∧ popN d self.q.length self.finish
          = .done (self.q.map (fun v => (true, v)), { q := [], finished := true })
      ∧ popN d (self.q.length + 1) self.finish
          = .done (self.q.map (fun v => (true, v)) ++ [(false, d)],
              { q := [], finished := true }) :=
  ⟨rfl, rfl, popN_length d true self.q, popN_length_succ_closed d self.q⟩

/-- C5, the claim as stated fails: from the closed, empty queue reached by
`finish()` on a new queue, the trace `push(42)` is followed by a `pop` that
returns `true` with 42, not "not found". -/
theorem C5_push_after_drain_counterexample :
    run (init : ThreadSafeQueue Int) [.finish] = .done ([.void], { q := [], finished := true })
      ∧ run { q := ([] : List Int), finished := true } [.push 42]
          = .done ([.void], { q := [42], finished := true })
      ∧ pop { q := ([42] : List Int), finished := true } 0
          = .done { ret := true, value := 42, self := { q := [], finished := true } } := by
  decide

/-- C5 as amended (drain-then-signal): from a closed queue with an empty sequence,
after every trace of calls, `pop` returns without suspending, with `false` exactly
when the sequence is empty at that call; when the trace holds no `push`, the
queue is as it was and `pop` returns `false`, `value` untouched. -/
theorem C5_drain_then_signal (self : ThreadSafeQueue T) (ops : List (Op T)) (value : T)
    (hclosed : self.finished = true) (hempty : self.q = []) :
    ∃ rets last, run self ops = .done (rets, last)
      ∧ (∃ r, last.pop value = .done r ∧ (r.ret = false ↔ last.q = []))
      ∧ (noPush ops = true →
          last = self ∧ last.pop value = .done { ret := false, value := value, self := self }) := by
  obtain ⟨rets, last, hrun, hlast⟩ := run_closed ops self hclosed
  refine ⟨rets, last, hrun, pop_closed last value hlast, ?_⟩
  intro hno
  obtain ⟨q, f⟩ := self
  simp only at hclosed hempty
  subst hclosed hempty
  obtain ⟨rets', hrun'⟩ := run_closed_empty_noPush ops hno
  rw [hrun'] at hrun
  cases hrun
  exact ⟨rfl, pop_nil_closed value⟩

/-- C5 as amended at a concrete state: the closed empty queue of `int` and a trace
without `push`. -/
theorem C5_drain_then_signal_witness :
    ∃ rets last,
      run { q := ([] : List Int), finished := true } [.pop 1, .tryPop 2, .size, .finish]
        = .done (rets, last)
      ∧ (∃ r, last.pop 7 = .done r ∧ (r.ret = false ↔ last.q = []))
      ∧ (noPush ([.pop 1, .tryPop 2, .size, .finish] : List (Op Int)) = true →
          last = { q := [], finished := true }
          ∧ last.pop 7
              = .done { ret := false, value := 7, self := { q := [], finished := true } }) :=
  C5_drain_then_signal { q := ([] : List Int), finished := true }
    [.pop 1, .tryPop 2, .size, .finish] 7 rfl rfl

/-- C6: `tryPop` always returns (it never suspends), with `false` exactly when the
sequence is empty at the call; with the other value of the closed flag it returns
the same `bool`, the same `value` and the same sequence. -/
theorem C6_tryPop_not_found_iff (self : ThreadSafeQueue T) (value : T) :
    ∃ r, self.tryPop value = .done r
      ∧ (r.ret = false ↔ self.q = [])
      ∧ ∀ b : Bool, tryPop { q := self.q, finished := b } value
          = .done { ret := r.ret, value := r.value,
                    self := { q := r.self.q, finished := b } } := by
  obtain ⟨q, f⟩ := self
  cases q with
  | nil => exact ⟨_, tryPop_nil f value, by simp, fun b => tryPop_nil b value⟩
  | cons a rest =>
    exact ⟨_, tryPop_cons a rest f value, by simp, fun b => tryPop_cons a rest b value⟩

/-- C7 (closed is one-way): on a closed queue every call returns and leaves the
queue closed; and in every trace, from every state, the queue is closed after
every call that follows a `finish()`. -/
theorem C7_closed_is_one_way :
    (∀ (self : ThreadSafeQueue T) (op : Op T), self.finished = true →
        ∃ ret next, step self op = .done (ret, next) ∧ next.finished = true)
      ∧ (∀ (self : ThreadSafeQueue T) (before after : List (Op T)),
          ∃ rets last, run self (before ++ Op.finish :: after) = .done (rets, last)
            ∧ last.finished = true) := by
  refine ⟨fun self op h => step_closed self op h, ?_⟩
  intro self before
  induction before generalizing self with
  | nil =>
    intro after
    obtain ⟨rets, last, hrun, hlast⟩ := run_closed after self.finish rfl
    exact ⟨.void :: rets, last, by simp [run, step, hrun], hlast⟩
  | cons op ops ih =>
    intro after
    obtain ⟨rets0, last0, hrun0, -⟩ := run_conservation [op] self
    cases hstep : step self op with
    | done a =>
      obtain ⟨rets, last, hrun, hlast⟩ := ih a.2 after
      exact ⟨a.1 :: rets, last, by simp [run, hstep, hrun], hlast⟩
    | waiting =>
      obtain ⟨rets, last, hrun, hlast⟩ := ih self after
      exact ⟨.suspended :: rets, last, by simp [run, hstep, hrun], hlast⟩
    | undefined => simp [run, hstep] at hrun0

/-- C7 at a concrete closed queue and at a concrete trace around one `finish()`. -/
theorem C7_closed_is_one_way_witness :
    (∃ ret next, step { q := ([3] : List Int), finished := true } (.push 4) = .done (ret, next)
        ∧ next.finished = true)
      ∧ (∃ rets last,
          run (init : ThreadSafeQueue Int) ([.push 1, .pop 0] ++ Op.finish :: [.push 2, .pop 0, .pop 0])
            = .done (rets, last)
          ∧ last.finished = true) :=
  ⟨C7_closed_is_one_way.1 { q := ([3] : List Int), finished := true } (.push 4) rfl,
   C7_closed_is_one_way.2 (init : ThreadSafeQueue Int) [.push 1, .pop 0] [.push 2, .pop 0, .pop 0]⟩

/-- C8 (close is idempotent): a second `finish()` changes neither the flag nor
the sequence. -/
theorem C8_finish_idempotent (self : ThreadSafeQueue T) :
    self.finish.finish = self.finish
      ∧ step self.finish .finish = .done (.void, self.finish) :=
  ⟨rfl, rfl⟩

/-- C9: `push(v)` always returns, puts `v` at the tail of the sequence with the
elements before it unchanged, raises `size()` by exactly one and leaves the closed
flag as it was. -/
theorem C9_push_appends (self : ThreadSafeQueue T) (v : T) :
    step self (.push v) = .done (.void, self.push v)
      ∧ (self.push v).q = self.q ++ [v]
      ∧ (self.push v).size = self.size + 1
      ∧ (self.push v).finished = self.finished := by
  refine ⟨rfl, rfl, ?_, rfl⟩
  simp [size, push, StdQueue.size, StdQueue.push]

/-- C10 (push after close): on a closed queue `push(v)` returns and enqueues `v` at
the tail, as it does on the open queue with the same sequence; once the elements
before it have been popped, `pop` returns `true` with `v`. -/
theorem C10_push_after_close (self : ThreadSafeQueue T) (v d : T)
    (hclosed : self.finished = true) :
    step self (.push v) = .done (.void, { q := self.q ++ [v], finished := true })
      ∧ (self.push v).q = (push { q := self.q, finished := false } v).q
      ∧ popN d self.q.length (self.push v)
          = .done (self.q.map (fun e => (true, e)), { q := [v], finished := true })
      ∧ pop { q := [v], finished := true } d
          = .done { ret := true, value := v, self := { q := [], finished := true } } := by
  obtain ⟨q, f⟩ := self
  simp only at hclosed
  subst hclosed
  refine ⟨rfl, rfl, ?_, pop_cons v [] true d⟩
  induction q with
  | nil => simp [popN, push, StdQueue.push]
  | cons a rest ih =>
    have h : push { q := a :: rest, finished := true } v
        = { q := a :: (rest ++ [v]), finished := true } := rfl
    simp only [push, StdQueue.push] at ih
    simp [h, popN, pop_cons, ih]

/-- C10 at the closed queue 1, 2 of `int` with `push(3)`. -/
theorem C10_push_after_close_witness :
    step { q := ([1, 2] : List Int), finished := true } (.push 3)
        = .done (.void, { q := [1, 2] ++ [3], finished := true })
      ∧ (push { q := ([1, 2] : List Int), finished := true } 3).q
          = (push { q := ([1, 2] : List Int), finished := false } 3).q
      ∧ popN 0 ([1, 2] : List Int).length (push { q := ([1, 2] : List Int), finished := true } 3)
          = .done (([1, 2] : List Int).map (fun e => (true, e)), { q := [3], finished := true })
      ∧ pop { q := ([3] : List Int), finished := true } 0
          = .done { ret := true, value := 3, self := { q := [], finished := true } } :=
  C10_push_after_close { q := ([1, 2] : List Int), finished := true } 3 0 rfl

/-- C11: `pop` can complete exactly when the sequence is non-empty or the queue is
closed, and suspends exactly on an empty open queue; a wakeup in a state where it
cannot complete leaves the members as they are and the caller blocked; a caller
blocked on an empty open queue returns `true` with `v` once `push(v)` has run and
`false`, `value` untouched, once `finish()` has run. -/
theorem C11_pop_suspends_iff (self : ThreadSafeQueue T) (value v : T) :
    ((∃ r, self.pop value = .done r) ↔ (self.q ≠ [] ∨ self.finished = true))
      ∧ (self.pop value = .waiting ↔ (self.q = [] ∧ self.finished = false))
      ∧ (self.pop value = .waiting → self.wakeup value = .done (.blocked value, self))
      ∧ (self.q = [] → self.finished = false →
          (self.push v).wakeup value = .done (.returned true v, self)
          ∧ self.finish.wakeup value = .done (.returned false value, self.finish)) := by
  obtain ⟨q, f⟩ := self
  cases q with
  | nil =>
    cases f with
    | false =>
      refine ⟨by simp [pop_nil_open], by simp [pop_nil_open], ?_, ?_⟩
      · intro _
        simp [wakeup, pop_nil_open]
      · intro _ _
        constructor
        · simp [wakeup, push, StdQueue.push, pop_cons]
        · simp [wakeup, finish, pop_nil_closed]
    | true =>
      refine ⟨by simp [pop_nil_closed], by simp [pop_nil_closed], ?_, ?_⟩
      · intro h
        simp [pop_nil_closed] at h
      · intro _ h
        simp at h
  | cons a rest =>
    refine ⟨by simp [pop_cons], by simp [pop_cons], ?_, ?_⟩
    · intro h
      simp [pop_cons] at h
    · intro h
      simp at h

/-- C11 at the empty open queue of `int`: the blocked caller stays blocked on a
wakeup, returns 42 after `push(42)` and "not found" after `finish()`. -/
theorem C11_pop_suspends_iff_witness :
    wakeup { q := ([] : List Int), finished := false } 0
        = .done (.blocked 0, { q := [], finished := false })
      ∧ (push { q := ([] : List Int), finished := false } 42).wakeup 0
          = .done (.returned true 42, { q := [], finished := false })
      ∧ (finish { q := ([] : List Int), finished := false }).wakeup 0
          = .done (.returned false 0, finish { q := [], finished := false }) :=
  have h := C11_pop_suspends_iff { q := ([] : List Int), finished := false } 0 42
  ⟨h.2.2.1 (by decide), h.2.2.2 rfl rfl⟩

/-- C12: on a non-empty sequence, open or closed, `tryPop` and `pop` come to the
same thing: both return `true`, deliver the head element and leave the rest of
the sequence, the closed flag as it was. -/
theorem C12_tryPop_eq_pop (self : ThreadSafeQueue T) (value : T) (h : self.q ≠ []) :
    self.tryPop value = self.pop value
      ∧ ∃ a rest, self.q = a :: rest
          ∧ self.pop value = .done { ret := true, value := a,
                                     self := { q := rest, finished := self.finished } } := by
  obtain ⟨q, f⟩ := self
  cases q with
  | nil => exact absurd rfl h
  | cons a rest =>
    exact ⟨by rw [tryPop_cons, pop_cons], a, rest, rfl, pop_cons a rest f value⟩

/-- C12 at the closed queue 4, 5 of `int`. -/
theorem C12_tryPop_eq_pop_witness :
    tryPop { q := ([4, 5] : List Int), finished := true } 0
        = pop { q := ([4, 5] : List Int), finished := true } 0
      ∧ ∃ a rest, ([4, 5] : List Int) = a :: rest
          ∧ pop { q := ([4, 5] : List Int), finished := true } 0
              = .done { ret := true, value := a, self := { q := rest, finished := true } } :=
  C12_tryPop_eq_pop { q := ([4, 5] : List Int), finished := true } 0 (by decide)

/-- C13: `size()` returns the number of elements of the sequence, `empty()` returns
`true` exactly when that number is 0, and both calls return with the sequence
and the closed flag as they were. -/
theorem C13_empty_size_snapshot (self : ThreadSafeQueue T) :
    self.size = self.q.length
      ∧ (self.empty = true ↔ self.size = 0)
      ∧ step self .empty = .done (.isEmpty self.empty, self)
      ∧ step self .size = .done (.count self.size, self) := by
  refine ⟨rfl, ?_, rfl, rfl⟩
  obtain ⟨q, f⟩ := self
  cases q <;> simp [empty, size, StdQueue.empty, StdQueue.size]

/-- C14: a newly constructed queue has no elements (`size()` is 0, `empty()` is
`true`), is open, and `tryPop` on it returns `false`. -/
theorem C14_new_queue_empty_open (value : T) :
    (init : ThreadSafeQueue T).q = []
      ∧ (init : ThreadSafeQueue T).size = 0
      ∧ (init : ThreadSafeQueue T).empty = true
      ∧ (init : ThreadSafeQueue T).finished = false
      ∧ (init : ThreadSafeQueue T).tryPop value
          = .done { ret := false, value := value, self := init } :=
  ⟨rfl, rfl, rfl, rfl, tryPop_nil false value⟩

/-- C15 (mutual exclusion): under every schedule of any number of threads calling
the public member functions, a thread whose next statement reads or writes `q` or
`finished` is the thread that holds `mtx`, so no two threads are at such a
statement at once; and the statements counted are all there are: any other
statement comes to the same step whatever the members hold and leaves them
alone. -/
theorem C15_mutual_exclusion (self : ThreadSafeQueue T) (n : Nat)
    (events : List (Nat × Op T)) :
    (∀ (i : Nat) (pc : Pc T), ((Config.start self n).exec events).pcs[i]? = some pc →
        pc.accesses = true → ((Config.start self n).exec events).owner = some i)
      ∧ (∀ (i j : Nat) (pci pcj : Pc T), ((Config.start self n).exec events).pcs[i]? = some pci →
          ((Config.start self n).exec events).pcs[j]? = some pcj →
          pci.accesses = true → pcj.accesses = true → i = j)
      ∧ (∀ (pc : Pc T) (call : Op T) (s t : ThreadSafeQueue T), pc.accesses = false →
          pc.move call s = pc.move call t
            ∧ ∀ next after, pc.move call s ≠ .access next after) := by
  have hinv := Config.lockDiscipline_exec events _ (Config.lockDiscipline_start self n)
  refine ⟨?_, ?_, ?_⟩
  · intro i pc hpc hacc
    exact hinv i pc hpc (Pc.inLockScope_of_accesses pc hacc)
  · intro i j pci pcj hi hj hai haj
    have h1 := hinv i pci hi (Pc.inLockScope_of_accesses pci hai)
    have h2 := hinv j pcj hj (Pc.inLockScope_of_accesses pcj haj)
    rw [h1] at h2
    exact Option.some.inj h2
  · intro pc call s t hacc
    exact Pc.move_frame call s t pc hacc

/-- C15 on a schedule of two threads: thread 0 is inside `push(7)` about to run
line 23 and holds the mutex, thread 1 has entered `pop` and is still at line 29. -/
theorem C15_mutual_exclusion_witness :
    (Config.start (init : ThreadSafeQueue Int) 2).exec
        [(0, .push 7), (1, .pop 0), (0, .push 7), (1, .pop 0), (1, .pop 0)]
      = { self := init, owner := some 0, pcs := [.pushQ 7, .popLock 0] }
    ∧ ((Pc.pushQ 7 : Pc Int).accesses = true → some 0 = some 0) :=
  ⟨by decide,
   fun h => (C15_mutual_exclusion (init : ThreadSafeQueue Int) 2
      [(0, .push 7), (1, .pop 0), (0, .push 7), (1, .pop 0), (1, .pop 0)]).1 0 (.pushQ 7)
      (by decide) h⟩

/-- C16: no call reaches `front()` or `pop()` of an empty sequence: `pop` and
`tryPop` never come to `Outcome.undefined`, in any state, nor does any call or
any trace of calls; and when they return `true` the sequence was non-empty. -/
theorem C16_no_undefined (self : ThreadSafeQueue T) (value : T) :
    self.pop value ≠ .undefined
      ∧ self.tryPop value ≠ .undefined
      ∧ (∀ op, step self op ≠ .undefined)
      ∧ (∀ ops, run self ops ≠ .undefined)
      ∧ (∀ r, (self.pop value = .done r ∨ self.tryPop value = .done r) →
          r.ret = true → StdQueue.front self.q = some r.value
            ∧ StdQueue.pop self.q = some r.self.q) := by
  have hpop : ∀ x : T, self.pop x ≠ .undefined := by
    intro x
    obtain ⟨q, f⟩ := self
    cases q with
    | nil => cases f <;> simp [pop_nil_open, pop_nil_closed]
    | cons a rest => simp [pop_cons]
  have htry : ∀ x : T, self.tryPop x ≠ .undefined := by
    intro x
    obtain ⟨q, f⟩ := self
    cases q with
    | nil => simp [tryPop_nil]
    | cons a rest => simp [tryPop_cons]
  refine ⟨hpop value, htry value, ?_, ?_, ?_⟩
  · intro op
    cases op with
    | push x => simp [step]
    | pop x =>
      have := hpop x
      cases h : self.pop x <;> simp_all [step]
    | tryPop x =>
      have := htry x
      cases h : self.tryPop x <;> simp_all [step]
    | empty => simp [step]
    | size => simp [step]
    | finish => simp [step]
  · intro ops
    obtain ⟨rets, last, hrun, -⟩ := run_conservation ops self
    simp [hrun]
  · intro r hr hret
    obtain ⟨q, f⟩ := self
    cases q with
    | nil =>
      rw [tryPop_nil] at hr
      cases f with
      | false =>
        rw [pop_nil_open] at hr
        rcases hr with hr | hr
        · cases hr
        · cases hr
          simp at hret
      | true =>
        rw [pop_nil_closed] at hr
        rcases hr with hr | hr <;> cases hr <;> simp at hret
    | cons a rest =>
      rw [tryPop_cons, pop_cons] at hr
      rcases hr with hr | hr <;> cases hr <;> simp [StdQueue.front, StdQueue.pop]

/-- C17: when `pop` or `tryPop` returns `false`, the sequence and the closed flag
are what they were before the call and the caller's `value` is untouched. -/
theorem C17_not_found_atomic (self : ThreadSafeQueue T) (value : T) (r : PopResult T)
    (hcall : self.pop value = .done r ∨ self.tryPop value = .done r)
    (hret : r.ret = false) :
    r.self = self ∧ r.value = value := by
  obtain ⟨q, f⟩ := self
  cases q with
  | nil =>
    rw [tryPop_nil] at hcall
    cases f with
    | false =>
      rw [pop_nil_open] at hcall
      rcases hcall with hr | hr
      · cases hr
      · cases hr
        exact ⟨rfl, rfl⟩
    | true =>
      rw [pop_nil_closed] at hcall
      rcases hcall with hr | hr <;> cases hr <;> exact ⟨rfl, rfl⟩
  | cons a rest =>
    rw [tryPop_cons, pop_cons] at hcall
    rcases hcall with hr | hr <;> cases hr <;> simp at hret

/-- C17 at the closed empty queue of `int`, the caller's variable holding 9: `pop`
returns `false`, and the state and the variable are as before. -/
theorem C17_not_found_atomic_witness :
    pop { q := ([] : List Int), finished := true } 9
        = .done { ret := false, value := 9, self := { q := [], finished := true } }
      ∧ (({ ret := false, value := 9, self := { q := [], finished := true } }
            : PopResult Int).self = { q := [], finished := true }
        ∧ ({ ret := false, value := 9, self := { q := [], finished := true } }
            : PopResult Int).value = 9) :=
  ⟨by decide,
   C17_not_found_atomic { q := ([] : List Int), finished := true } 9
    { ret := false, value := 9, self := { q := [], finished := true } }
    (Or.inl (by decide)) rfl⟩

end ThreadSafeQueue
